import Mathlib

/-!
# TrafficLight.cpp: message queue and phase toggle loop

A shallow embedding of `src/TrafficLight.cpp`:

* `MessageQueue<T>` (`send`, `receive`) over a list standing for the `_queue` container;
* `TrafficLight` (constructor, `getCurrentPhase`, the predicate loop of `waitForGreen`,
  one iteration of the `while (true)` loop of `cycleThroughPhases`, and runs of that loop).

Blocking calls are modelled by their wait predicate: a call whose predicate is false
does not complete and leaves the state as it is.  The clock, the random generator and
the choice made by `notify_one` are inputs of the loop iteration.
-/

namespace TrafficSim

/-! ## MessageQueue -/

/-- The class `MessageQueue<T>`: the member `_queue`, front of the container first.
The class is declared in `TrafficLight.h`, which is not among the sources; the calls
made on `_queue` (`empty`, `front`, `pop_front`, `clear`, `push_back`) are those of a
standard sequence container, modelled by a list. -/
structure MessageQueue (T : Type) where
  _queue : List T
  deriving DecidableEq, Repr

namespace MessageQueue

variable {T : Type}

/-- A queue as constructed: `_queue` starts empty. -/
def empty : MessageQueue T := ⟨[]⟩

/-- The wait predicate of `receive` (line 16): `!_queue.empty()`. -/
def receiveReady (q : MessageQueue T) : Bool := !q._queue.isEmpty

/-- Method `MessageQueue<T>::receive` (lines 8-21).  While the wait predicate is false the
call is blocked: nothing is returned (`none`) and the queue is as before.  Otherwise
`msg = std::move(_queue.front()); _queue.pop_front(); return msg;`. -/
def receive (q : MessageQueue T) : Option T × MessageQueue T :=
  match q._queue with
  | [] => (none, q)
  | msg :: rest => (some msg, ⟨rest⟩)

/-- Method `MessageQueue<T>::send` (lines 24-35): `_queue.clear(); _queue.push_back(msg);`. -/
def send (_q : MessageQueue T) (msg : T) : MessageQueue T :=
  ⟨([] : List T) ++ [msg]⟩

/-- One operation on the queue. -/
inductive QueueOp (T : Type) where
  | sendOp (msg : T)
  | receiveOp
  deriving DecidableEq, Repr

/-- Apply one operation; a `receive` that cannot complete leaves the queue as it is. -/
def applyOp (q : MessageQueue T) : QueueOp T → MessageQueue T
  | .sendOp msg => send q msg
  | .receiveOp => (receive q).2

/-- Apply a finite sequence of operations, first operation first. -/
def runOps (ops : List (QueueOp T)) (q : MessageQueue T) : MessageQueue T :=
  ops.foldl applyOp q

/-- The values returned by the receives of a sequence of operations, in order. -/
def received : List (QueueOp T) → MessageQueue T → List T
  | [], _ => []
  | .sendOp msg :: ops, q => received ops (send q msg)
  | .receiveOp :: ops, q =>
      match (receive q).1 with
      | some v => v :: received ops (receive q).2
      | none => received ops (receive q).2

end MessageQueue

/-! ## TrafficLight -/

/-- Modelled from the spec: the enumeration `TrafficLightPhase` is declared in
`TrafficLight.h`, which is not among the sources; the spec gives it exactly two
members, and `TrafficLight.cpp` names them `red` and `green`. -/
inductive TrafficLightPhase where
  | red
  | green
  deriving DecidableEq, Repr

open TrafficLightPhase

/-- The shared members of `TrafficLight`: `_currentPhase`, and for `_condition` the
identifiers of the threads parked in `_condition.wait` inside `waitForGreen`. -/
structure TrafficLight where
  _currentPhase : TrafficLightPhase
  _condition : List Nat
  deriving DecidableEq, Repr

namespace TrafficLight

/-- Constructor `TrafficLight::TrafficLight()` (lines 39-42): `_currentPhase = red`; nobody waits. -/
def new : TrafficLight := ⟨red, []⟩

/-- Method `TrafficLight::getCurrentPhase` (lines 65-68): `return _currentPhase;`. -/
def getCurrentPhase (tl : TrafficLight) : TrafficLightPhase := tl._currentPhase

/-- The wait predicate of `waitForGreen` (line 62): `_currentPhase == green`. -/
def greenPredicate (p : TrafficLightPhase) : Bool := p == green

/-- Method `TrafficLight::waitForGreen` (lines 44-63), `_condition.wait(lck, pred)` being
`while (!pred()) wait(lck);`.  The argument lists the value of `_currentPhase` at each
evaluation of the predicate: on entry, then at every wakeup (notified or spurious).
The result is the index of the evaluation after which the call returns, `none` when
the call is still blocked after all of them. -/
def waitForGreen : List TrafficLightPhase → Option Nat
  | [] => none
  | p :: later => if greenPredicate p then some 0 else (waitForGreen later).map (· + 1)

/-- Entry of thread `tid` into `waitForGreen`: with the predicate true the call
returns at once (`true`); otherwise the thread parks on `_condition`. -/
def enterWaitForGreen (tid : Nat) (tl : TrafficLight) : Bool × TrafficLight :=
  if greenPredicate tl._currentPhase then (true, tl)
  else (false, ⟨tl._currentPhase, tl._condition ++ [tid]⟩)

/-- Library call `std::condition_variable::notify_one`: with no thread waiting nothing happens;
otherwise one waiting thread, chosen by `pick`, is unblocked.  Returns the unblocked
threads and the threads still waiting. -/
def notify_one (pick : Nat) (waiting : List Nat) : List Nat × List Nat :=
  match waiting[pick % waiting.length]? with
  | none => ([], waiting)
  | some t => ([t], waiting.eraseIdx (pick % waiting.length))

end TrafficLight

open TrafficLight

/-- Conversion of a `long long` count to `int` (line 97): reduction modulo `2^32`
into the range `[-2^31, 2^31)`. -/
def toInt32 (x : Int) : Int := (x + 2147483648) % 4294967296 - 2147483648

/-- The elapsed time of line 97 before it is stored:
`duration_cast<milliseconds>(now - lastUpdate).count()`.  Clock readings are counted in
ticks of `system_clock`, `ticksPerMs` ticks to the millisecond; `duration_cast`
truncates toward zero. -/
def elapsedMilliseconds (ticksPerMs now lastUpdate : Int) : Int :=
  (now - lastUpdate).tdiv ticksPerMs

/-- Line 97: the local `int timeSinceLastUpdate`, the elapsed milliseconds narrowed
to `int`. -/
def timeSinceLastUpdate (ticksPerMs now lastUpdate : Int) : Int :=
  toInt32 (elapsedMilliseconds ticksPerMs now lastUpdate)

/-- The toggle of line 101: `_currentPhase == red ? green : red`. -/
def togglePhase (p : TrafficLightPhase) : TrafficLightPhase :=
  if p = red then green else red

/-- The state of the loop of `cycleThroughPhases`: the light it acts on and its
locals `cycleDuration` and `lastUpdate`. -/
structure LoopState where
  light : TrafficLight
  cycleDuration : Int
  lastUpdate : Int
  deriving DecidableEq, Repr

/-- What one loop iteration takes from the outside: the clock reading of line 97,
the value `distr(eng)` of line 115, the clock reading of line 117, and the choice
made by `notify_one` on line 111. -/
structure IterEnv where
  now : Int
  draw : Int
  nowReset : Int
  pick : Nat
  deriving DecidableEq, Repr

/-- Lines 86-91: the first `distr(eng)` and the first clock reading. -/
def cycleThroughPhasesInit (tl : TrafficLight) (draw0 now0 : Int) : LoopState :=
  ⟨tl, draw0, now0⟩

/-- The guard of line 98: `timeSinceLastUpdate >= cycleDuration`. -/
def expired (ticksPerMs : Int) (e : IterEnv) (s : LoopState) : Bool :=
  decide (timeSinceLastUpdate ticksPerMs e.now s.lastUpdate ≥ s.cycleDuration)

/-- Lines 101-112: toggle `_currentPhase`, then `notify_one` when the new phase is
green.  Returns the light and the threads unblocked by the notification. -/
def toggleAndNotify (pick : Nat) (tl : TrafficLight) : TrafficLight × List Nat :=
  let newPhase := togglePhase tl._currentPhase
  if newPhase = green then
    (⟨newPhase, (notify_one pick tl._condition).2⟩, (notify_one pick tl._condition).1)
  else
    (⟨newPhase, tl._condition⟩, [])

/-- One iteration of the `while (true)` loop (lines 94-118), after the sleep. -/
def cycleIteration (ticksPerMs : Int) (e : IterEnv) (s : LoopState) : LoopState :=
  if expired ticksPerMs e s then
    ⟨(toggleAndNotify e.pick s.light).1, e.draw, e.nowReset⟩
  else
    s

/-- The threads unblocked by one iteration. -/
def wokenBy (ticksPerMs : Int) (e : IterEnv) (s : LoopState) : List Nat :=
  if expired ticksPerMs e s then (toggleAndNotify e.pick s.light).2 else []

/-- A run of the loop: one iteration per element of `envs`, in order. -/
def runLoop (ticksPerMs : Int) (envs : List IterEnv) (s : LoopState) : LoopState :=
  envs.foldl (fun st e => cycleIteration ticksPerMs e st) s

/-- The clock readings (line 97) of the iterations of a run that toggled the phase. -/
def transitionTimes (ticksPerMs : Int) : List IterEnv → LoopState → List Int
  | [], _ => []
  | e :: es, s =>
      if expired ticksPerMs e s then
        e.now :: transitionTimes ticksPerMs es (cycleIteration ticksPerMs e s)
      else
        transitionTimes ticksPerMs es (cycleIteration ticksPerMs e s)

/-- The inputs of iterations `k`, `k+1`, ..., `k+n-1` (counted from 0) of a run started
at clock reading `t0` in which the clock advances by the sleep of line 95, one
millisecond, per iteration and by nothing else, with `draws i` the value the
generator gives in iteration `i`. -/
def steadyEnvs (ticksPerMs t0 : Int) (draws : Nat → Int) (picks : Nat → Nat) :
    Nat → Nat → List IterEnv
  | _, 0 => []
  | k, n + 1 =>
      ⟨t0 + (k + 1) * ticksPerMs, draws k, t0 + (k + 1) * ticksPerMs, picks k⟩ ::
        steadyEnvs ticksPerMs t0 draws picks (k + 1) n

/-! ## Accesses to the shared phase and the mutex -/

/-- What a method does to `_mutex`, `_condition` and `_currentPhase`, in program order. -/
inductive SyncOp where
  | lockMutex
  | unlockMutex
  | waitCondition
  | readPhase
  | writePhase
  | notifyCondition
  deriving DecidableEq, Repr

open SyncOp

/-- Method `getCurrentPhase` (line 67): one read of `_currentPhase`. -/
def getCurrentPhaseOps : List SyncOp := [readPhase]

/-- The wait loop of line 62 with `n` wakeups before the predicate holds: each wakeup
is one `wait(lck)` followed by a read of the predicate; then the lock is released at
the end of the scope (line 63). -/
def waitLoopOps : Nat → List SyncOp
  | 0 => [unlockMutex]
  | n + 1 => waitCondition :: readPhase :: waitLoopOps n

/-- Method `waitForGreen` (lines 61-63) with `n` wakeups before it returns: the `unique_lock`
is taken, the predicate is read, then the wait loop runs. -/
def waitForGreenOps (n : Nat) : List SyncOp :=
  lockMutex :: readPhase :: waitLoopOps n

/-- The branch of lines 99-118 entered with phase `p`: the comparison and the
assignment of line 101, the comparison of line 110, the `notify_one` of line 111
when the new phase is green. -/
def toggleBranchOps (p : TrafficLightPhase) : List SyncOp :=
  [readPhase, writePhase, readPhase] ++
    (if togglePhase p = green then [notifyCondition] else [])

/-- Whether every read, write and notification of a sequence happens with `_mutex`
held, `held` telling whether it is held at the start.  `wait` needs the mutex and
returns with it held again. -/
def underMutex : Bool → List SyncOp → Bool
  | _, [] => true
  | _, lockMutex :: ops => underMutex true ops
  | _, unlockMutex :: ops => underMutex false ops
  | held, waitCondition :: ops => held && underMutex true ops
  | held, readPhase :: ops => held && underMutex held ops
  | held, writePhase :: ops => held && underMutex held ops
  | held, notifyCondition :: ops => held && underMutex held ops

/-! ## MessageQueue: theorems -/

namespace MessageQueue

variable {T : Type}

theorem send_queue (q : MessageQueue T) (msg : T) : (send q msg)._queue = [msg] := rfl

theorem receive_snd_length (q : MessageQueue T) :
    (receive q).2._queue.length ≤ q._queue.length := by
  obtain ⟨l⟩ := q
  cases l <;> simp [receive]

theorem applyOp_length (q : MessageQueue T) (op : QueueOp T) (h : q._queue.length ≤ 1) :
    (applyOp q op)._queue.length ≤ 1 := by
  cases op with
  | sendOp msg => simp [applyOp, send_queue]
  | receiveOp => exact le_trans (receive_snd_length q) h

theorem runOps_length (ops : List (QueueOp T)) (q : MessageQueue T)
    (h : q._queue.length ≤ 1) : (runOps ops q)._queue.length ≤ 1 := by
  induction ops generalizing q with
  | nil => simpa [runOps] using h
  | cons op ops ih => exact ih (applyOp q op) (applyOp_length q op h)

theorem runOps_append (ops more : List (QueueOp T)) (q : MessageQueue T) :
    runOps (ops ++ more) q = runOps more (runOps ops q) := by
  simp [runOps, List.foldl_append]

theorem mem_received (ops : List (QueueOp T)) (q : MessageQueue T) (v : T)
    (h : v ∈ received ops q) : v ∈ q._queue ∨ QueueOp.sendOp v ∈ ops := by
  induction ops generalizing q with
  | nil => simp [received] at h
  | cons op ops ih =>
    cases op with
    | sendOp msg =>
      rcases ih (send q msg) (by simpa [received] using h) with h1 | h1
      · right
        simp [send_queue] at h1
        simp [h1]
      · right
        simp [h1]
    | receiveOp =>
      obtain ⟨l⟩ := q
      cases l with
      | nil =>
        rcases ih ⟨[]⟩ (by simpa [received, receive] using h) with h1 | h1
        · exact Or.inl h1
        · right
          simp [h1]
      | cons x rest =>
        simp only [received, receive, List.mem_cons] at h
        rcases h with h | h
        · left
          simp [h]
        · rcases ih ⟨rest⟩ h with h1 | h1
          · left
            simp only [List.mem_cons]
            exact Or.inr h1
          · right
            simp [h1]

/-- C1: for every queue state `q` and values `a`, `b`, after `send(a)` then `send(b)`
the next `receive()` returns `b` and leaves the queue empty; a further receive does not
return, and every value returned by a receive of any later sequence of operations was
sent by a send of that later sequence, so the overwritten `a` is never observed. -/
theorem send_send_receive_overwrites (q : MessageQueue T) (a b : T) :
    receive (send (send q a) b) = (some b, empty) ∧
    receive (receive (send (send q a) b)).2 = (none, empty) ∧
    ∀ (ops : List (QueueOp T)) (v : T),
      v ∈ received ops (receive (send (send q a) b)).2 → QueueOp.sendOp v ∈ ops := by
  refine ⟨rfl, rfl, ?_⟩
  intro ops v hv
  rcases mem_received ops _ v hv with h | h
  · simp [receive, send] at h
  · exact h

/-- C2: starting from the empty queue, after every finite sequence of sends and
receives `_queue` holds at most one value, and right after a `send(v)` it holds exactly
the single value `v`. -/
theorem queue_capacity_one (ops : List (QueueOp T)) :
    (runOps ops (empty : MessageQueue T))._queue.length ≤ 1 ∧
    ∀ v : T, (runOps (ops ++ [QueueOp.sendOp v]) (empty : MessageQueue T))._queue = [v] := by
  refine ⟨runOps_length ops empty (by simp [empty]), ?_⟩
  intro v
  rw [runOps_append]
  rfl

/-- C3: `receive` completes exactly when the queue is non-empty; on an empty queue it
does not return and the queue is unchanged; and in every queue state reached from the
empty queue by sends and receives, a receive that completes returns the pending value
and leaves the queue empty, so that a second receive right after it does not return. -/
theorem receive_blocking_contract (ops : List (QueueOp T)) :
    (∀ q : MessageQueue T, (receive q).1.isSome = receiveReady q) ∧
    (∀ q : MessageQueue T, q._queue = [] → receive q = (none, q)) ∧
    (∀ (v : T) (q1 : MessageQueue T), receive (runOps ops empty) = (some v, q1) →
      (runOps ops empty)._queue = [v] ∧ q1 = empty ∧ receive q1 = (none, q1)) := by
  refine ⟨?_, ?_, ?_⟩
  · intro q
    obtain ⟨l⟩ := q
    cases l <;> simp [receive, receiveReady]
  · intro q hq
    obtain ⟨l⟩ := q
    simp only at hq
    subst hq
    rfl
  · intro v q1 h
    have hlen := runOps_length ops (empty : MessageQueue T) (by simp [empty])
    generalize runOps ops (empty : MessageQueue T) = q at h hlen
    obtain ⟨l⟩ := q
    match l, h, hlen with
    | [], h, _ => simp [receive] at h
    | [x], h, _ =>
      simp only [receive, Prod.mk.injEq, Option.some.injEq] at h
      obtain ⟨h1, h2⟩ := h
      subst h1
      subst h2
      exact ⟨rfl, rfl, rfl⟩
    | _ :: _ :: _, _, hlen => simp at hlen

/-- Witness for C3: the queue reached by `send 5`, whose receive returns `5`. -/
theorem receive_blocking_contract_witness :
    receive (runOps [QueueOp.sendOp 5] (empty : MessageQueue Nat)) = (some 5, empty) ∧
    ((runOps [QueueOp.sendOp 5] (empty : MessageQueue Nat))._queue = [5] ∧
      (empty : MessageQueue Nat) = empty ∧
      receive (empty : MessageQueue Nat) = (none, empty)) :=
  ⟨rfl, (receive_blocking_contract [QueueOp.sendOp 5]).2.2 5 empty rfl⟩

end MessageQueue

/-! ## TrafficLight: phase, toggle loop -/

theorem togglePhase_ne (p : TrafficLightPhase) : togglePhase p ≠ p := by
  cases p <;> decide

theorem togglePhase_twice (p : TrafficLightPhase) : togglePhase (togglePhase p) = p := by
  cases p <;> rfl

theorem toggleAndNotify_phase (pick : Nat) (tl : TrafficLight) :
    (toggleAndNotify pick tl).1._currentPhase = togglePhase tl._currentPhase := by
  unfold toggleAndNotify
  by_cases h : togglePhase tl._currentPhase = green <;> simp [h]

theorem cycleIteration_expired (tpm : Int) (e : IterEnv) (s : LoopState)
    (h : expired tpm e s = true) :
    cycleIteration tpm e s = ⟨(toggleAndNotify e.pick s.light).1, e.draw, e.nowReset⟩ := by
  simp [cycleIteration, h]

theorem cycleIteration_idle (tpm : Int) (e : IterEnv) (s : LoopState)
    (h : expired tpm e s = false) : cycleIteration tpm e s = s := by
  simp [cycleIteration, h]

theorem phase_after_run (tpm : Int) (envs : List IterEnv) (s : LoopState) :
    (runLoop tpm envs s).light._currentPhase =
      if (transitionTimes tpm envs s).length % 2 = 0 then s.light._currentPhase
      else togglePhase s.light._currentPhase := by
  induction envs generalizing s with
  | nil => simp [runLoop, transitionTimes]
  | cons e es ih =>
    have hrun : runLoop tpm (e :: es) s = runLoop tpm es (cycleIteration tpm e s) := rfl
    rw [hrun, ih]
    by_cases h : expired tpm e s = true
    · have hphase : (cycleIteration tpm e s).light._currentPhase
          = togglePhase s.light._currentPhase := by
        rw [cycleIteration_expired tpm e s h]
        exact toggleAndNotify_phase e.pick s.light
      simp only [transitionTimes, h, if_true, List.length_cons, hphase, togglePhase_twice]
      rcases Nat.mod_two_eq_zero_or_one
        (transitionTimes tpm es (cycleIteration tpm e s)).length with h2 | h2
      · have h3 : ((transitionTimes tpm es (cycleIteration tpm e s)).length + 1) % 2 = 1 := by
          omega
        simp [h2, h3]
      · have h3 : ((transitionTimes tpm es (cycleIteration tpm e s)).length + 1) % 2 = 0 := by
          omega
        simp [h2, h3]
    · have h0 : expired tpm e s = false := by simpa using h
      simp [transitionTimes, h0, cycleIteration_idle tpm e s h0]

theorem transitions_replicate (n : Nat) (tl : TrafficLight) :
    (transitionTimes 1 (List.replicate n ⟨0, 0, 0, 0⟩) ⟨tl, 0, 0⟩).length = n := by
  induction n generalizing tl with
  | zero => rfl
  | succ n ih =>
    have h : expired 1 ⟨0, 0, 0, 0⟩ ⟨tl, 0, 0⟩ = true := by
      simp [expired, timeSinceLastUpdate, elapsedMilliseconds, toInt32]
    simp only [List.replicate_succ, transitionTimes, h, if_true, List.length_cons,
      cycleIteration_expired 1 _ _ h]
    rw [ih]

/-- C4: every transition performed by the toggle loop sets `_currentPhase` to the other
member of red and green (red becomes green, green becomes red): the new phase differs
from the old one, and two consecutive transitions restore the original phase. -/
theorem transition_alternates (tpm : Int) (e1 e2 : IterEnv) (s : LoopState)
    (h1 : expired tpm e1 s = true) (h2 : expired tpm e2 (cycleIteration tpm e1 s) = true) :
    togglePhase red = green ∧ togglePhase green = red ∧
    (cycleIteration tpm e1 s).light._currentPhase = togglePhase s.light._currentPhase ∧
    (cycleIteration tpm e1 s).light._currentPhase ≠ s.light._currentPhase ∧
    (cycleIteration tpm e2 (cycleIteration tpm e1 s)).light._currentPhase
      = s.light._currentPhase := by
  have hp1 : (cycleIteration tpm e1 s).light._currentPhase
      = togglePhase s.light._currentPhase := by
    rw [cycleIteration_expired tpm e1 s h1]
    exact toggleAndNotify_phase e1.pick s.light
  have hp2 : (cycleIteration tpm e2 (cycleIteration tpm e1 s)).light._currentPhase
      = togglePhase (cycleIteration tpm e1 s).light._currentPhase := by
    rw [cycleIteration_expired tpm e2 _ h2]
    exact toggleAndNotify_phase e2.pick _
  refine ⟨rfl, rfl, hp1, ?_, ?_⟩
  · rw [hp1]
    exact togglePhase_ne _
  · rw [hp2, hp1, togglePhase_twice]

/-- Witness for C4: two transitions, 5000 ms and then 4500 ms after the last update. -/
theorem transition_alternates_witness :
    togglePhase red = green ∧ togglePhase green = red ∧
    (cycleIteration 1 ⟨5000, 4500, 5000, 0⟩ ⟨TrafficLight.new, 5000, 0⟩).light._currentPhase
      = togglePhase (LoopState.mk TrafficLight.new 5000 0).light._currentPhase ∧
    (cycleIteration 1 ⟨5000, 4500, 5000, 0⟩ ⟨TrafficLight.new, 5000, 0⟩).light._currentPhase
      ≠ (LoopState.mk TrafficLight.new 5000 0).light._currentPhase ∧
    (cycleIteration 1 ⟨9500, 4200, 9500, 0⟩
      (cycleIteration 1 ⟨5000, 4500, 5000, 0⟩ ⟨TrafficLight.new, 5000, 0⟩)).light._currentPhase
      = (LoopState.mk TrafficLight.new 5000 0).light._currentPhase :=
  transition_alternates 1 ⟨5000, 4500, 5000, 0⟩ ⟨9500, 4200, 9500, 0⟩
    ⟨TrafficLight.new, 5000, 0⟩ (by decide) (by decide)

/-- C5: a freshly constructed `TrafficLight` reports red from `getCurrentPhase`; after
any run of a single toggle loop started on it, `getCurrentPhase` returns red when the
number `n` of transitions of the run is even and green when it is odd; and every `n`
is the number of transitions of some run. -/
theorem phase_by_parity :
    TrafficLight.new.getCurrentPhase = red ∧
    (∀ (tpm : Int) (envs : List IterEnv) (draw0 now0 : Int),
      (runLoop tpm envs (cycleThroughPhasesInit TrafficLight.new draw0 now0)).light.getCurrentPhase
        = if (transitionTimes tpm envs
              (cycleThroughPhasesInit TrafficLight.new draw0 now0)).length % 2 = 0
          then red else green) ∧
    (∀ n : Nat, ∃ (tpm : Int) (envs : List IterEnv) (draw0 now0 : Int),
      (transitionTimes tpm envs
        (cycleThroughPhasesInit TrafficLight.new draw0 now0)).length = n) := by
  refine ⟨rfl, ?_, ?_⟩
  · intro tpm envs draw0 now0
    exact phase_after_run tpm envs (cycleThroughPhasesInit TrafficLight.new draw0 now0)
  · intro n
    exact ⟨1, List.replicate n ⟨0, 0, 0, 0⟩, 0, 0, transitions_replicate n TrafficLight.new⟩

theorem toInt32_of_range (x : Int) (h1 : -2147483648 ≤ x) (h2 : x < 2147483648) :
    toInt32 x = x := by
  unfold toInt32
  omega

theorem iteration_toggles_iff_guard (tpm : Int) (e : IterEnv) (s : LoopState) :
    (((cycleIteration tpm e s).light._currentPhase = togglePhase s.light._currentPhase ∧
        (cycleIteration tpm e s).cycleDuration = e.draw ∧
        (cycleIteration tpm e s).lastUpdate = e.nowReset)
      ↔ timeSinceLastUpdate tpm e.now s.lastUpdate ≥ s.cycleDuration) ∧
    (timeSinceLastUpdate tpm e.now s.lastUpdate < s.cycleDuration →
      cycleIteration tpm e s = s) := by
  refine ⟨⟨?_, ?_⟩, ?_⟩
  · rintro ⟨hp, -, -⟩
    by_contra hlt
    have h0 : expired tpm e s = false := by simpa [expired] using hlt
    rw [cycleIteration_idle tpm e s h0] at hp
    exact togglePhase_ne _ hp.symm
  · intro hge
    have h1 : expired tpm e s = true := by simpa [expired] using hge
    rw [cycleIteration_expired tpm e s h1]
    exact ⟨toggleAndNotify_phase e.pick s.light, rfl, rfl⟩
  · intro hlt
    have h0 : expired tpm e s = false := by simpa [expired] using hlt
    exact cycleIteration_idle tpm e s h0

/-- C6 as stated fails at clock readings whose distance from `lastUpdate` does not fit
the `int` of line 97.  With `lastUpdate = 0`, `cycleDuration = 5000` and the clock at
2^31 ms the elapsed time 2147483648 is at least `cycleDuration`, yet the stored value
is -2147483648 and the iteration changes nothing; with the clock 2^31 + 1 ms behind
`lastUpdate` the elapsed time is below `cycleDuration`, yet the stored value is
2147483647 and the iteration toggles, redraws and resets. -/
theorem iteration_ignores_elapsed_beyond_int :
    (elapsedMilliseconds 1 2147483648 0 = 2147483648 ∧
      timeSinceLastUpdate 1 2147483648 0 = -2147483648 ∧
      cycleIteration 1 ⟨2147483648, 4500, 2147483648, 0⟩ ⟨TrafficLight.new, 5000, 0⟩
        = ⟨TrafficLight.new, 5000, 0⟩) ∧
    (elapsedMilliseconds 1 (-2147483649) 0 = -2147483649 ∧
      timeSinceLastUpdate 1 (-2147483649) 0 = 2147483647 ∧
      cycleIteration 1 ⟨-2147483649, 4500, -2147483649, 0⟩ ⟨TrafficLight.new, 5000, 0⟩
        = ⟨⟨green, []⟩, 4500, -2147483649⟩) ∧
    ¬ (∀ (tpm : Int) (e : IterEnv) (s : LoopState),
        (((cycleIteration tpm e s).light._currentPhase = togglePhase s.light._currentPhase ∧
            (cycleIteration tpm e s).cycleDuration = e.draw ∧
            (cycleIteration tpm e s).lastUpdate = e.nowReset)
          ↔ elapsedMilliseconds tpm e.now s.lastUpdate ≥ s.cycleDuration) ∧
        (elapsedMilliseconds tpm e.now s.lastUpdate < s.cycleDuration →
          cycleIteration tpm e s = s)) := by
  refine ⟨by decide, by decide, ?_⟩
  intro h
  have h2 := (h 1 ⟨2147483648, 4500, 2147483648, 0⟩ ⟨TrafficLight.new, 5000, 0⟩).1.2
    (by decide)
  revert h2
  decide

/-- C6, amended: for every loop state and every clock reading whose elapsed whole
milliseconds since `lastUpdate` fit a 32-bit `int` (at least -2^31 and below 2^31), the
stored `timeSinceLastUpdate` is that elapsed time, and the iteration flips the phase,
takes the new draw as `cycleDuration` and resets `lastUpdate` to the clock if and only
if the elapsed time is greater than or equal to `cycleDuration`; when the elapsed time
is smaller, the whole loop state (phase, `cycleDuration`, `lastUpdate`) is unchanged. -/
theorem iteration_toggles_iff_elapsed (tpm : Int) (e : IterEnv) (s : LoopState)
    (hlo : -2147483648 ≤ elapsedMilliseconds tpm e.now s.lastUpdate)
    (hhi : elapsedMilliseconds tpm e.now s.lastUpdate < 2147483648) :
    timeSinceLastUpdate tpm e.now s.lastUpdate
      = elapsedMilliseconds tpm e.now s.lastUpdate ∧
    (((cycleIteration tpm e s).light._currentPhase = togglePhase s.light._currentPhase ∧
        (cycleIteration tpm e s).cycleDuration = e.draw ∧
        (cycleIteration tpm e s).lastUpdate = e.nowReset)
      ↔ elapsedMilliseconds tpm e.now s.lastUpdate ≥ s.cycleDuration) ∧
    (elapsedMilliseconds tpm e.now s.lastUpdate < s.cycleDuration →
      cycleIteration tpm e s = s) := by
  have heq : timeSinceLastUpdate tpm e.now s.lastUpdate
      = elapsedMilliseconds tpm e.now s.lastUpdate :=
    toInt32_of_range _ hlo hhi
  have hguard := iteration_toggles_iff_guard tpm e s
  rw [heq] at hguard
  exact ⟨heq, hguard.1, hguard.2⟩

/-- Witness for C6, amended: 5000 ms after the last update with a cycle of 5000 ms the
iteration toggles. -/
theorem iteration_toggles_iff_elapsed_witness :
    (-2147483648 ≤ elapsedMilliseconds 1 5000 0 ∧ elapsedMilliseconds 1 5000 0 < 2147483648) ∧
    elapsedMilliseconds 1 5000 0 ≥ 5000 ∧
    cycleIteration 1 ⟨5000, 4500, 5001, 0⟩ ⟨TrafficLight.new, 5000, 0⟩
      = ⟨⟨green, []⟩, 4500, 5001⟩ ∧
    (((cycleIteration 1 ⟨5000, 4500, 5001, 0⟩ ⟨TrafficLight.new, 5000, 0⟩).light._currentPhase
        = togglePhase (LoopState.mk TrafficLight.new 5000 0).light._currentPhase ∧
      (cycleIteration 1 ⟨5000, 4500, 5001, 0⟩ ⟨TrafficLight.new, 5000, 0⟩).cycleDuration
        = (IterEnv.mk 5000 4500 5001 0).draw ∧
      (cycleIteration 1 ⟨5000, 4500, 5001, 0⟩ ⟨TrafficLight.new, 5000, 0⟩).lastUpdate
        = (IterEnv.mk 5000 4500 5001 0).nowReset)
      ↔ elapsedMilliseconds 1 (IterEnv.mk 5000 4500 5001 0).now
          (LoopState.mk TrafficLight.new 5000 0).lastUpdate
        ≥ (LoopState.mk TrafficLight.new 5000 0).cycleDuration) :=
  ⟨⟨by decide, by decide⟩, by decide, by decide,
    (iteration_toggles_iff_elapsed 1 ⟨5000, 4500, 5001, 0⟩ ⟨TrafficLight.new, 5000, 0⟩
      (by decide) (by decide)).2.1⟩

/-! ## TrafficLight: waitForGreen -/

theorem waitForGreen_some (obs : List TrafficLightPhase) (i : Nat)
    (h : waitForGreen obs = some i) :
    obs[i]? = some green ∧ ∀ j, j < i → obs[j]? = some red := by
  induction obs generalizing i with
  | nil => simp [waitForGreen] at h
  | cons p later ih =>
    cases p with
    | green =>
      have hi : i = 0 := by
        simp [waitForGreen, greenPredicate] at h
        exact h.symm
      subst hi
      simp
    | red =>
      simp only [waitForGreen, greenPredicate] at h
      have h1 : (waitForGreen later).map (· + 1) = some i := by simpa using h
      cases hw : waitForGreen later with
      | none => simp [hw] at h1
      | some k =>
        simp [hw] at h1
        subst h1
        obtain ⟨ih1, ih2⟩ := ih k hw
        refine ⟨by simpa using ih1, ?_⟩
        intro j hj
        cases j with
        | zero => simp
        | succ j => simpa using ih2 j (by omega)

theorem waitForGreen_all_red (obs : List TrafficLightPhase) (h : ∀ p ∈ obs, p = red) :
    waitForGreen obs = none := by
  induction obs with
  | nil => rfl
  | cons p later ih =>
    have hp : p = red := h p (by simp)
    subst hp
    have hl := ih (fun q hq => h q (by simp [hq]))
    simp [waitForGreen, greenPredicate, hl]

theorem waitForGreen_returns (obs : List TrafficLightPhase) (h : green ∈ obs) :
    (waitForGreen obs).isSome = true := by
  induction obs with
  | nil => simp at h
  | cons p later ih =>
    cases p with
    | green => simp [waitForGreen, greenPredicate]
    | red =>
      have hl : green ∈ later := by simpa using h
      have := ih hl
      simp only [waitForGreen, greenPredicate]
      cases hw : waitForGreen later with
      | none => simp [hw] at this
      | some k => simp

/-- C8: whatever `_currentPhase` is at the successive evaluations of the wait predicate
(on entry and at every wakeup, spurious ones included), a call of `waitForGreen` that
returns does so at an evaluation where `_currentPhase` is green, having seen red at all
earlier ones; while the phase is red at every evaluation the call does not return; and
once an evaluation sees green the call does return. -/
theorem waitForGreen_postcondition (obs : List TrafficLightPhase) :
    (∀ i, waitForGreen obs = some i →
      obs[i]? = some green ∧ ∀ j, j < i → obs[j]? = some red) ∧
    ((∀ p ∈ obs, p = red) → waitForGreen obs = none) ∧
    (green ∈ obs → (waitForGreen obs).isSome = true) :=
  ⟨waitForGreen_some obs, waitForGreen_all_red obs, waitForGreen_returns obs⟩

/-- Witness for C8: red on entry and at one spurious wakeup, green at the next wakeup. -/
theorem waitForGreen_postcondition_witness :
    waitForGreen [red, red, green, red] = some 2 ∧
    ([red, red, green, red][2]? = some green ∧
      ∀ j, j < 2 → [red, red, green, red][j]? = some red) :=
  ⟨by decide, (waitForGreen_postcondition [red, red, green, red]).1 2 (by decide)⟩

/-! ## Lock discipline -/

theorem waitLoopOps_underMutex (n : Nat) : underMutex true (waitLoopOps n) = true := by
  induction n with
  | zero => rfl
  | succ n ih => simp [waitLoopOps, underMutex, ih]

/-- C10 on the code: `getCurrentPhase` reads `_currentPhase` and the toggle branch of
`cycleThroughPhases` reads, writes and notifies without holding `_mutex`; only
`waitForGreen` performs its reads of `_currentPhase` with `_mutex` held. -/
theorem phase_access_without_mutex :
    underMutex false getCurrentPhaseOps = false ∧
    (∀ p, underMutex false (toggleBranchOps p) = false) ∧
    (∀ n, underMutex false (waitForGreenOps n) = true) := by
  refine ⟨rfl, ?_, ?_⟩
  · intro p
    cases p <;> rfl
  · intro n
    simp [waitForGreenOps, underMutex, waitLoopOps_underMutex]

/-! ## Notification on the transition to green -/

theorem notify_one_spec (pick : Nat) (ws : List Nat) :
    (notify_one pick ws).1.length = min 1 ws.length ∧
    (notify_one pick ws).2.length = ws.length - 1 ∧
    (∀ t ∈ (notify_one pick ws).1, t ∈ ws) := by
  cases ws with
  | nil => simp [notify_one]
  | cons w rest =>
    have hlt : pick % (w :: rest).length < (w :: rest).length :=
      Nat.mod_lt _ (by simp)
    have hget : (w :: rest)[pick % (w :: rest).length]?
        = some ((w :: rest)[pick % (w :: rest).length]) :=
      List.getElem?_eq_getElem hlt
    unfold notify_one
    rw [hget]
    refine ⟨by simp, ?_, ?_⟩
    · simp only
      rw [List.length_eraseIdx_of_lt hlt]
    · intro t ht
      simp only [List.mem_singleton] at ht
      rw [ht]
      exact List.getElem_mem hlt

/-- C9 as stated fails: threads 1 and 2 call `waitForGreen` on a fresh (red) light and
both block; when the loop then toggles red to green, `notify_one` unblocks thread 1
only and thread 2 stays parked;
so it is not true that every transition to green leaves no thread blocked. -/
theorem green_transition_leaves_waiters :
    enterWaitForGreen 2 (enterWaitForGreen 1 TrafficLight.new).2 = (false, ⟨red, [1, 2]⟩) ∧
    cycleIteration 1 ⟨5000, 4500, 5000, 0⟩ ⟨⟨red, [1, 2]⟩, 5000, 0⟩
      = ⟨⟨green, [2]⟩, 4500, 5000⟩ ∧
    wokenBy 1 ⟨5000, 4500, 5000, 0⟩ ⟨⟨red, [1, 2]⟩, 5000, 0⟩ = [1] ∧
    ¬ (∀ (tpm : Int) (e : IterEnv) (s : LoopState),
        s.light._currentPhase = red → expired tpm e s = true →
        (cycleIteration tpm e s).light._condition = []) := by
  refine ⟨by decide, by decide, by decide, ?_⟩
  intro h
  have h2 := h 1 ⟨5000, 4500, 5000, 0⟩ ⟨⟨red, [1, 2]⟩, 5000, 0⟩ rfl (by decide)
  revert h2
  decide

/-- C9, amended: a transition from red to green of the toggle loop, with `N` threads
blocked in `waitForGreen`, makes the phase green and unblocks one of those threads when
`N` is at least 1 (none when `N` is 0); the unblocked thread finds the wait predicate
true and returns; the other `N - 1` threads stay blocked.  So no thread is left blocked
exactly when `N` is at most 1. -/
theorem green_transition_wakes_one (tpm : Int) (e : IterEnv) (s : LoopState)
    (hred : s.light._currentPhase = red) (hexp : expired tpm e s = true) :
    (cycleIteration tpm e s).light._currentPhase = green ∧
    greenPredicate (cycleIteration tpm e s).light._currentPhase = true ∧
    (wokenBy tpm e s).length = min 1 s.light._condition.length ∧
    (∀ t ∈ wokenBy tpm e s, t ∈ s.light._condition) ∧
    (cycleIteration tpm e s).light._condition.length = s.light._condition.length - 1 ∧
    ((cycleIteration tpm e s).light._condition = [] ↔ s.light._condition.length ≤ 1) := by
  obtain ⟨h1, h2, h3⟩ := notify_one_spec e.pick s.light._condition
  have hlight : (toggleAndNotify e.pick s.light)
      = (⟨green, (notify_one e.pick s.light._condition).2⟩,
          (notify_one e.pick s.light._condition).1) := by
    simp [toggleAndNotify, hred, togglePhase]
  have hw : wokenBy tpm e s = (notify_one e.pick s.light._condition).1 := by
    simp [wokenBy, hexp, hlight]
  rw [cycleIteration_expired tpm e s hexp, hlight, hw]
  refine ⟨rfl, rfl, h1, h3, h2, ?_⟩
  simp only
  rw [← List.length_eq_zero, h2]
  omega

/-- Witness for C9, amended: two threads blocked at a transition from red to green. -/
theorem green_transition_wakes_one_witness :
    (cycleIteration 1 ⟨5000, 4500, 5000, 0⟩ ⟨⟨red, [1, 2]⟩, 5000, 0⟩).light._currentPhase
      = green ∧
    (wokenBy 1 ⟨5000, 4500, 5000, 0⟩ ⟨⟨red, [1, 2]⟩, 5000, 0⟩).length = 1 ∧
    (cycleIteration 1 ⟨5000, 4500, 5000, 0⟩ ⟨⟨red, [1, 2]⟩, 5000, 0⟩).light._condition.length
      = 1 :=
  ⟨(green_transition_wakes_one 1 ⟨5000, 4500, 5000, 0⟩ ⟨⟨red, [1, 2]⟩, 5000, 0⟩
      rfl (by decide)).1,
    by decide, by decide⟩

/-! ## Intervals between transitions -/

theorem timeSince_steady (tpm t0 a m : Int) (htpm : 0 < tpm) (h1 : 0 ≤ a - m)
    (h2 : a - m < 2147483648) :
    timeSinceLastUpdate tpm (t0 + a * tpm) (t0 + m * tpm) = a - m := by
  unfold timeSinceLastUpdate elapsedMilliseconds
  have hdiff : t0 + a * tpm - (t0 + m * tpm) = (a - m) * tpm := by ring
  rw [hdiff, Int.mul_tdiv_cancel _ (ne_of_gt htpm)]
  exact toInt32_of_range _ (by omega) h2

theorem steady_chain (tpm t0 : Int) (draws : Nat → Int) (picks : Nat → Nat)
    (htpm : 0 < tpm) (hd : ∀ i, 4000 ≤ draws i ∧ draws i ≤ 6000) (n : Nat) :
    ∀ (k m : Nat) (s : LoopState), s.lastUpdate = t0 + (m : Int) * tpm → m ≤ k →
      (k : Int) - m < s.cycleDuration → 4000 ≤ s.cycleDuration → s.cycleDuration ≤ 6000 →
      List.Chain (fun a b => 4000 * tpm ≤ b - a ∧ b - a ≤ 6000 * tpm) s.lastUpdate
        (transitionTimes tpm (steadyEnvs tpm t0 draws picks k n) s) := by
  induction n with
  | zero =>
    intro k m s _ _ _ _ _
    simp [steadyEnvs, transitionTimes]
  | succ n ih =>
    intro k m s hl hmk hlt h4 h6
    have hmk2 : (m : Int) ≤ k := by exact_mod_cast hmk
    have hts : timeSinceLastUpdate tpm (t0 + ((k : Int) + 1) * tpm) s.lastUpdate
        = (k : Int) + 1 - m := by
      rw [hl]
      exact timeSince_steady tpm t0 _ _ htpm (by omega) (by omega)
    simp only [steadyEnvs, transitionTimes]
    by_cases hge : s.cycleDuration ≤ (k : Int) + 1 - m
    · have hexp : expired tpm
          ⟨t0 + ((k : Int) + 1) * tpm, draws k, t0 + ((k : Int) + 1) * tpm, picks k⟩ s
            = true := by
        simp [expired, hts, hge]
      rw [if_pos hexp, cycleIteration_expired tpm _ s hexp]
      have hcd : (k : Int) + 1 - m = s.cycleDuration := by omega
      have hgap : t0 + ((k : Int) + 1) * tpm - s.lastUpdate = s.cycleDuration * tpm := by
        rw [hl, ← hcd]
        ring
      refine List.Chain.cons ?_ ?_
      · rw [hgap]
        exact ⟨mul_le_mul_of_nonneg_right h4 (le_of_lt htpm),
          mul_le_mul_of_nonneg_right h6 (le_of_lt htpm)⟩
      · have hnext := ih (k + 1) (k + 1)
          ⟨(toggleAndNotify (picks k) s.light).1, draws k, t0 + ((k : Int) + 1) * tpm⟩
          (by push_cast; ring) le_rfl
          (by
            have := (hd k).1
            simp only
            omega)
          (hd k).1 (hd k).2
        exact hnext
    · have hexp : expired tpm
          ⟨t0 + ((k : Int) + 1) * tpm, draws k, t0 + ((k : Int) + 1) * tpm, picks k⟩ s
            = false := by
        simp [expired, hts, hge]
      rw [hexp, cycleIteration_idle tpm _ s hexp]
      simp only [Bool.false_eq_true, if_false]
      exact ih (k + 1) m s hl (by omega) (by push_cast; omega) h4 h6

theorem steady_first (tpm t0 : Int) (draws : Nat → Int) (picks : Nat → Nat)
    (htpm : 0 < tpm) (n : Nat) :
    ∀ (k m : Nat) (s : LoopState), s.lastUpdate = t0 + (m : Int) * tpm → m ≤ k →
      (k : Int) - m < s.cycleDuration → s.cycleDuration ≤ 6000 →
      s.cycleDuration - ((k : Int) - m) ≤ n →
      (transitionTimes tpm (steadyEnvs tpm t0 draws picks k n) s).head?
        = some (s.lastUpdate + s.cycleDuration * tpm) := by
  induction n with
  | zero =>
    intro k m s _ _ hlt _ hn
    exfalso
    have hn2 : s.cycleDuration - ((k : Int) - m) ≤ 0 := by exact_mod_cast hn
    omega
  | succ n ih =>
    intro k m s hl hmk hlt h6 hn
    have hmk2 : (m : Int) ≤ k := by exact_mod_cast hmk
    have hn2 : s.cycleDuration - ((k : Int) - m) ≤ (n : Int) + 1 := by exact_mod_cast hn
    have hts : timeSinceLastUpdate tpm (t0 + ((k : Int) + 1) * tpm) s.lastUpdate
        = (k : Int) + 1 - m := by
      rw [hl]
      exact timeSince_steady tpm t0 _ _ htpm (by omega) (by omega)
    simp only [steadyEnvs, transitionTimes]
    by_cases hge : s.cycleDuration ≤ (k : Int) + 1 - m
    · have hexp : expired tpm
          ⟨t0 + ((k : Int) + 1) * tpm, draws k, t0 + ((k : Int) + 1) * tpm, picks k⟩ s
            = true := by
        simp [expired, hts, hge]
      rw [if_pos hexp]
      have hcd : (k : Int) + 1 - m = s.cycleDuration := by omega
      simp only [List.head?_cons, Option.some.injEq]
      rw [hl, ← hcd]
      ring
    · have hexp : expired tpm
          ⟨t0 + ((k : Int) + 1) * tpm, draws k, t0 + ((k : Int) + 1) * tpm, picks k⟩ s
            = false := by
        simp [expired, hts, hge]
      rw [hexp, cycleIteration_idle tpm _ s hexp]
      simp only [Bool.false_eq_true, if_false]
      exact ih (k + 1) m s hl (by omega) (by push_cast; omega) h6 (by push_cast; omega)

/-- C7: when every drawn cycle duration lies in [4000, 6000] and the clock advances by
one millisecond (`ticksPerMs` ticks) per loop iteration, then in every run of the toggle
loop the time from the loop start to the first transition and the time between any two
consecutive transitions lie within [4000, 6000] milliseconds (no slack is needed); and
a run of at least `draw0` iterations has its first transition `draw0` milliseconds
after the start. -/
theorem steady_run_intervals (tpm t0 : Int) (draws : Nat → Int) (picks : Nat → Nat)
    (tl : TrafficLight) (draw0 : Int) (n : Nat) (htpm : 0 < tpm)
    (h0 : 4000 ≤ draw0 ∧ draw0 ≤ 6000) (hd : ∀ i, 4000 ≤ draws i ∧ draws i ≤ 6000) :
    List.Chain (fun a b => 4000 * tpm ≤ b - a ∧ b - a ≤ 6000 * tpm) t0
      (transitionTimes tpm (steadyEnvs tpm t0 draws picks 0 n)
        (cycleThroughPhasesInit tl draw0 t0)) ∧
    (draw0 ≤ n →
      (transitionTimes tpm (steadyEnvs tpm t0 draws picks 0 n)
        (cycleThroughPhasesInit tl draw0 t0)).head? = some (t0 + draw0 * tpm)) := by
  constructor
  · exact steady_chain tpm t0 draws picks htpm hd n 0 0 (cycleThroughPhasesInit tl draw0 t0)
      (by simp [cycleThroughPhasesInit]) le_rfl
      (by simp only [cycleThroughPhasesInit]; push_cast; omega) h0.1 h0.2
  · intro hn
    exact steady_first tpm t0 draws picks htpm n 0 0 (cycleThroughPhasesInit tl draw0 t0)
      (by simp [cycleThroughPhasesInit]) le_rfl
      (by simp only [cycleThroughPhasesInit]; push_cast; omega) h0.2
      (by simp only [cycleThroughPhasesInit]; push_cast; omega)

/-- Witness for C7: a clock in milliseconds, every draw 4000, a run of 4000 iterations. -/
theorem steady_run_intervals_witness :
    List.Chain (fun a b => 4000 * (1 : Int) ≤ b - a ∧ b - a ≤ 6000 * (1 : Int)) 0
      (transitionTimes 1 (steadyEnvs 1 0 (fun _ => 4000) (fun _ => 0) 0 4000)
        (cycleThroughPhasesInit TrafficLight.new 4000 0)) ∧
    ((4000 : Int) ≤ (4000 : Nat) →
      (transitionTimes 1 (steadyEnvs 1 0 (fun _ => 4000) (fun _ => 0) 0 4000)
        (cycleThroughPhasesInit TrafficLight.new 4000 0)).head? = some (0 + 4000 * 1)) :=
  steady_run_intervals 1 0 (fun _ => 4000) (fun _ => 0) TrafficLight.new 4000 4000
    (by decide) ⟨by decide, by decide⟩ (fun _ => ⟨le_refl _, by norm_num⟩)

end TrafficSim
